import Mathlib

/-!
Verification of the market-data pipeline (price ingestion, fundamentals
ingestion, analysis/visualization service).

The development shallowly embeds the Python sources:
- src/services/analysis/app.py : compute_sma, fetch_available_symbols,
  fetch_price_history, and the symbol-resolution prologue shared by the
  dashboard and api_summary routes;
- src/services/price/app.py : insert_prices (INSERT ... ON CONFLICT DO NOTHING);
- src/services/fundamentals/app.py : _to_float, _to_int, upsert_fundamental
  (INSERT ... ON CONFLICT DO UPDATE).

Python floats are embedded as an inductive over exact rationals plus the
special values (infinity, negative infinity, NaN); binary64 rounding is not
modelled, which is irrelevant to the claims settled here except where noted
in doc comments. Python exceptions are embedded as an explicit error type
carried in Except. Database tables are embedded as lists of rows, with the
two conflict clauses of the SQL statements embedded as the corresponding
list transformations.
-/

namespace StocksPipeline

/-- Python exceptions relevant to the embedded code: ValueError, raised and
caught in the fundamentals coercions and raised by compute_sma on a
non-positive window, and OverflowError, raised by int() applied to an
infinite float. -/
inductive PyError where
  | valueError (msg : String)
  | overflowError (msg : String)
deriving DecidableEq, Repr

/-- A Python float value: a finite value (embedded exactly as a rational;
binary64 rounding is not modelled), an infinity, or NaN. -/
inductive PyFloat where
  | finite (q : ℚ)
  | inf
  | negInf
  | nan
deriving DecidableEq, Repr

/-- ASCII model of what Python str.upper does to one character (ticker
symbols are ASCII). -/
def pyUpperChar (c : Char) : Char :=
  if 'a' ≤ c ∧ c ≤ 'z' then Char.ofNat (c.toNat - 32) else c

/-- ASCII model of Python str.lower on one character, used when matching the
case-insensitive keywords accepted by float(). -/
def pyLowerChar (c : Char) : Char :=
  if 'A' ≤ c ∧ c ≤ 'Z' then Char.ofNat (c.toNat + 32) else c

/-- ASCII model of Python str.upper, applied by the analysis routes to the
symbol query parameter. -/
def pyUpper (s : String) : String := ⟨s.data.map pyUpperChar⟩

/-- Surrounding-whitespace strip, as performed by Python float() on its
string argument. -/
def pyStrip (cs : List Char) : List Char :=
  ((cs.dropWhile Char.isWhitespace).reverse.dropWhile Char.isWhitespace).reverse

/-- Numeric value of a list of ASCII digits. -/
def charDigitsVal (l : List Char) : Nat :=
  l.foldl (fun n c => 10 * n + (c.toNat - 48)) 0

/-- Model of Python float() on the unsigned body of a decimal literal:
optional integer part, optional fractional part after a dot (at least one
digit between them), optional exponent. The value is kept as an exact
rational; digit-group underscores and overflow of huge finite literals to
infinity are not modelled. Returns none where float() raises ValueError. -/
def parseDecimalChars (cs : List Char) : Option ℚ :=
  let intPart := cs.takeWhile Char.isDigit
  let r1 := cs.dropWhile Char.isDigit
  let fracPart :=
    match r1 with
    | '.' :: rest => rest.takeWhile Char.isDigit
    | _ => []
  let r2 :=
    match r1 with
    | '.' :: rest => rest.dropWhile Char.isDigit
    | _ => r1
  if intPart.isEmpty ∧ fracPart.isEmpty then none
  else
    let mant : ℚ := (charDigitsVal (intPart ++ fracPart) : ℚ) / (10 : ℚ) ^ fracPart.length
    match r2 with
    | [] => some mant
    | e :: r3 =>
      if e = 'e' ∨ e = 'E' then
        let eneg :=
          match r3 with
          | '-' :: _ => true
          | _ => false
        let r4 :=
          match r3 with
          | '+' :: rest => rest
          | '-' :: rest => rest
          | rest => rest
        let eds := r4.takeWhile Char.isDigit
        let r5 := r4.dropWhile Char.isDigit
        if eds.isEmpty ∨ ¬ r5.isEmpty then none
        else some (mant * (10 : ℚ) ^ (if eneg then -(charDigitsVal eds : ℤ) else (charDigitsVal eds : ℤ)))
      else none

/-- Model of Python float() on a string: strip whitespace, optional sign,
then either one of the case-insensitive keywords inf / infinity / nan or a
decimal literal. Returns none where float() raises ValueError. -/
def pyFloatOfString (s : String) : Option PyFloat :=
  let cs := pyStrip s.data
  let neg :=
    match cs with
    | '-' :: _ => true
    | _ => false
  let body :=
    match cs with
    | '+' :: rest => rest
    | '-' :: rest => rest
    | rest => rest
  let lower := body.map pyLowerChar
  if lower = ['i', 'n', 'f'] ∨ lower = ['i', 'n', 'f', 'i', 'n', 'i', 't', 'y'] then
    some (if neg then .negInf else .inf)
  else if lower = ['n', 'a', 'n'] then some .nan
  else
    match parseDecimalChars body with
    | some q => some (.finite (if neg then -q else q))
    | none => none

/-- Truncation toward zero, the behaviour of Python int() on a finite float. -/
def pyTrunc (q : ℚ) : ℤ := if 0 ≤ q then ⌊q⌋ else ⌈q⌉

/-- Model of Python int() applied to a float: truncation on finite values,
OverflowError on infinities, ValueError on NaN. -/
def pyFloatToInt : PyFloat → Except PyError ℤ
  | .finite q => .ok (pyTrunc q)
  | .inf => .error (.overflowError "cannot convert float infinity to integer")
  | .negInf => .error (.overflowError "cannot convert float infinity to integer")
  | .nan => .error (.valueError "cannot convert float NaN to integer")

/-! ## compute_sma (src/services/analysis/app.py lines 91-106) -/

/-- Loop state of compute_sma: the output list sma, the incremental
running_sum, and the sliding queue. -/
structure SmaState where
  sma : List (Option ℚ)
  running_sum : ℚ
  queue : List ℚ
deriving Repr

/-- One iteration of the for-loop of compute_sma: append the value to the
queue and add it to the running sum; while fewer than window values have
been seen append None; otherwise, if the queue has grown beyond the window,
pop its oldest element and subtract it; then append running_sum / window.
The window parameter is the (positive, by the guard in compute_sma) window
size. -/
def smaStep (window : ℕ) (st : SmaState) (value : ℚ) : SmaState :=
  let queue := st.queue ++ [value]
  let rs := st.running_sum + value
  if queue.length < window then
    ⟨st.sma ++ [none], rs, queue⟩
  else if window < queue.length then
    match queue with
    | [] => ⟨st.sma ++ [some (rs / (window : ℚ))], rs, []⟩
    | q0 :: rest => ⟨st.sma ++ [some ((rs - q0) / (window : ℚ))], rs - q0, rest⟩
  else
    ⟨st.sma ++ [some (rs / (window : ℚ))], rs, queue⟩

/-- The loop of compute_sma folded over the input values, from the empty
initial state. -/
def smaFold (window : ℕ) (values : List ℚ) : SmaState :=
  values.foldl (smaStep window) ⟨[], 0, []⟩

/-- Embedding of compute_sma: a non-positive window raises ValueError
(before the input is inspected); otherwise the loop above runs over the
values and its sma list is returned. The Python window is an arbitrary
integer; under the guard it is at least 1 and is passed on as the natural
number window.toNat, whose comparisons with queue lengths agree with the
source's integer comparisons. -/
def compute_sma (values : List ℚ) (window : ℤ) : Except PyError (List (Option ℚ)) :=
  if window ≤ 0 then .error (.valueError "SMA window must be positive")
  else .ok (smaFold window.toNat values).sma

/-- The w most recent input values at index i: values[i-w+1..i], written as
a drop from a prefix. -/
def trailingWindow (values : List ℚ) (w : ℕ) (i : ℕ) : List ℚ :=
  (values.take (i + 1)).drop (i + 1 - w)

/-- Intended value of the moving-average output at index i: undefined while
fewer than w values have been seen, else the mean of the trailing w values. -/
def smaAt (values : List ℚ) (w : ℕ) (i : ℕ) : Option ℚ :=
  if i + 1 < w then none else some ((trailingWindow values w i).sum / (w : ℚ))

/-! ## Price ingestion (src/services/price/app.py lines 46-63) -/

/-- One row of the prices table: symbol, UTC timestamp (embedded as an
integer timeline), OHLC as Python floats (exact rationals), volume. -/
structure PriceRow where
  symbol : String
  ts : ℤ
  open_ : ℚ
  high : ℚ
  low : ℚ
  close : ℚ
  volume : ℤ
deriving DecidableEq, Repr

/-- Whether the prices table already holds a row with the given
(symbol, ts) key — the conflict test of the unique constraint. -/
def hasPriceKey (table : List PriceRow) (symbol : String) (ts : ℤ) : Bool :=
  table.any (fun q => q.symbol == symbol && q.ts == ts)

/-- One execution of the INSERT ... ON CONFLICT (symbol, ts) DO NOTHING
statement of insert_prices: the row is appended unless its key is already
present, in which case the table is unchanged. -/
def insertPriceRow (table : List PriceRow) (r : PriceRow) : List PriceRow :=
  if hasPriceKey table r.symbol r.ts then table else table ++ [r]

/-- Embedding of insert_prices: the statement is executed once per row of
the batch, in order. -/
def insert_prices (table : List PriceRow) (rows : List PriceRow) : List PriceRow :=
  rows.foldl insertPriceRow table

/-- The uniqueness invariant of the prices table: no two rows share a
(symbol, ts) key. -/
def priceKeysUnique (table : List PriceRow) : Prop :=
  table.Pairwise (fun a b => a.symbol ≠ b.symbol ∨ a.ts ≠ b.ts)

/-! ## Fundamentals ingestion (src/services/fundamentals/app.py lines 39-80) -/

/-- One row of the fundamentals table. -/
structure FundRow where
  symbol : String
  pe_ratio : Option PyFloat
  market_cap : Option ℤ
  fifty_two_week_high : Option PyFloat
  updated_at : ℤ
deriving DecidableEq, Repr

/-- The provider payload fields read by upsert_fundamental; the third field
embeds the source key 52WeekHigh, which is not a Lean identifier. In the
JSON payload each is a string when present. -/
structure OverviewPayload where
  PERatio : Option String
  MarketCapitalization : Option String
  fiftyTwoWeekHigh : Option String
deriving DecidableEq, Repr

/-- Embedding of _to_float: None, the empty string and the literal string
None map to absent; otherwise float() is attempted and a ValueError is
caught to absent. float() on a string can raise nothing else, so this
always returns ok. -/
def _to_float (value : Option String) : Except PyError (Option PyFloat) :=
  match value with
  | none => .ok none
  | some s =>
    if s = "" ∨ s = "None" then .ok none
    else
      match pyFloatOfString s with
      | some f => .ok (some f)
      | none => .ok none

/-- Embedding of _to_int: as _to_float, then int() on the parsed float. The
try block catches only ValueError, so the ValueError raised by int() on NaN
is mapped to absent, while the OverflowError raised by int() on an infinite
float escapes as an error. -/
def _to_int (value : Option String) : Except PyError (Option ℤ) :=
  match value with
  | none => .ok none
  | some s =>
    if s = "" ∨ s = "None" then .ok none
    else
      match pyFloatOfString s with
      | none => .ok none
      | some f =>
        match pyFloatToInt f with
        | .ok n => .ok (some n)
        | .error (.valueError _) => .ok none
        | .error e => .error e

/-- One execution of UPSERT_SQL (INSERT ... ON CONFLICT (symbol) DO UPDATE
SET every value column and updated_at to the excluded row's values): rows
whose symbol matches are overwritten with the new row, otherwise the new
row is appended. -/
def upsertFundRow (table : List FundRow) (r : FundRow) : List FundRow :=
  if table.any (fun q => q.symbol == r.symbol) then
    table.map (fun q => if q.symbol = r.symbol then r else q)
  else table ++ [r]

/-- Embedding of upsert_fundamental: coerce the three payload fields, build
the row with a fresh UTC timestamp (passed in as now), and execute
UPSERT_SQL; an exception escaping a coercion aborts the upsert. -/
def upsert_fundamental (table : List FundRow) (symbol : String)
    (payload : OverviewPayload) (now : ℤ) : Except PyError (List FundRow) :=
  match payload with
  | ⟨peField, mcField, hiField⟩ =>
    match _to_float peField with
    | .error e => .error e
    | .ok pe =>
      match _to_int mcField with
      | .error e => .error e
      | .ok mc =>
        match _to_float hiField with
        | .error e => .error e
        | .ok hi => .ok (upsertFundRow table ⟨symbol, pe, mc, hi, now⟩)

/-! ## Analysis service (src/services/analysis/app.py lines 41-75, 139-146,
188-195) -/

/-- The result of SELECT DISTINCT symbol FROM prices ORDER BY symbol: the
distinct symbols of the table in ascending order. -/
def distinct_symbols (table : List PriceRow) : List String :=
  ((table.map PriceRow.symbol).dedup).insertionSort (· ≤ ·)

/-- Embedding of fetch_available_symbols: the distinct symbols present in
prices, or the configured ticker list when there are none. -/
def fetch_available_symbols (table : List PriceRow) (tickers : List String) : List String :=
  let rows := distinct_symbols table
  if rows.isEmpty then tickers else rows

/-- The possible failures of the two analysis routes: HTTP 503 and 404. -/
inductive HttpError where
  | serviceUnavailable (detail : String)
  | notFound (detail : String)
deriving DecidableEq, Repr

/-- Python's or-expression symbol or symbols[0] as it appears in the two
routes: the right operand is taken when the left is falsy, that is when the
optional query parameter is absent (None) or is the empty string. -/
def orFirst (symbol : Option String) (s0 : String) : String :=
  match symbol with
  | none => s0
  | some s => if s = "" then s0 else s

/-- Embedding of the symbol-resolution prologue shared verbatim by the
dashboard route (lines 139-146) and the api_summary route (lines 188-195):
503 when no symbols are available, otherwise upper-case the query parameter
(falling back to the first available symbol when the parameter is absent or
empty, Python's falsy-or) and 404 when the result is not among the
available symbols. The source's 404 detail quotes the symbol in an
f-string; the quotation punctuation is omitted here. -/
def resolve_symbol (symbols : List String) (symbol : Option String) : Except HttpError String :=
  match symbols with
  | [] => .error (.serviceUnavailable "No tickers available")
  | s0 :: _ =>
    let selected := pyUpper (orFirst symbol s0)
    if selected ∈ symbols then .ok selected
    else .error (.notFound ("Unknown symbol " ++ selected))

/-- The rows of the prices table belonging to one symbol (the WHERE clause
of fetch_price_history's query). -/
def symbolRows (table : List PriceRow) (symbol : String) : List PriceRow :=
  table.filter (fun r => r.symbol == symbol)

/-- ORDER BY ts DESC: timestamps are non-increasing along the list. -/
def tsSortedDesc (l : List PriceRow) : Prop :=
  l.Pairwise (fun a b => b.ts ≤ a.ts)

/-- Embedding of the tail of fetch_price_history: the rows returned by the
query (already sorted newest-first and cut to LIMIT) are reversed so the
list runs oldest to newest. The SQL SELECT itself is embedded by
quantifying over any list that is a permutation of the symbol's rows,
sorted by descending ts, with take applied for LIMIT. -/
def fetch_price_history (queryResult : List PriceRow) : List PriceRow :=
  queryResult.reverse

/-! ## Concrete data used to instantiate the theorems below -/

/-- A price bar for AAPL at time 1. -/
def demoBarOld : PriceRow := ⟨"AAPL", 1, 10, 12, 9, 11, 100⟩

/-- A price bar for AAPL at time 2. -/
def demoBarNew : PriceRow := ⟨"AAPL", 2, 11, 13, 10, 12, 110⟩

/-- The default configured ticker list (TICKERS with no environment
override). -/
def defaultTickers : List String := ["AAPL", "MSFT", "GOOGL"]

/-- A prices table holding rows only for symbol AAPL. -/
def demoTable : List PriceRow := [demoBarOld]

/-! ## Lemmas about the compute_sma loop -/

lemma smaFold_append (w : ℕ) (p : List ℚ) (v : ℚ) :
    smaFold w (p ++ [v]) = smaStep w (smaFold w p) v := by
  simp [smaFold, List.foldl_append]

lemma smaStep_lt (w : ℕ) (st : SmaState) (v : ℚ) (h : st.queue.length + 1 < w) :
    smaStep w st v = ⟨st.sma ++ [none], st.running_sum + v, st.queue ++ [v]⟩ := by
  simp [smaStep, h]

lemma smaStep_eq (w : ℕ) (st : SmaState) (v : ℚ) (h : st.queue.length + 1 = w) :
    smaStep w st v =
      ⟨st.sma ++ [some ((st.running_sum + v) / (w : ℚ))], st.running_sum + v, st.queue ++ [v]⟩ := by
  simp only [smaStep]
  rw [if_neg (by simp; omega), if_neg (by simp; omega)]

lemma smaStep_gt (w : ℕ) (st : SmaState) (v : ℚ) (q0 : ℚ) (rest : List ℚ)
    (hq : st.queue = q0 :: rest) (h : w ≤ st.queue.length) :
    smaStep w st v =
      ⟨st.sma ++ [some ((st.running_sum + v - q0) / (w : ℚ))], st.running_sum + v - q0, rest ++ [v]⟩ := by
  rw [hq] at h
  simp only [smaStep, hq, List.cons_append]
  rw [if_neg (by simp at h ⊢; omega), if_pos (by simp at h ⊢; omega)]

lemma smaAt_prefix (values : List ℚ) (v : ℚ) (w i : ℕ) (hi : i < values.length) :
    smaAt (values ++ [v]) w i = smaAt values w i := by
  unfold smaAt trailingWindow
  rw [List.take_append_of_le_length (by omega)]

lemma range_map_smaAt_append (w : ℕ) (p : List ℚ) (v : ℚ) :
    (List.range (p.length + 1)).map (smaAt (p ++ [v]) w)
      = (List.range p.length).map (smaAt p w) ++ [smaAt (p ++ [v]) w p.length] := by
  rw [List.range_succ, List.map_append, List.map_singleton]
  congr 1
  apply List.map_congr_left
  intro i hi
  exact smaAt_prefix p v w i (List.mem_range.mp hi)

lemma smaFold_invariant (w : ℕ) (hw : 1 ≤ w) (p : List ℚ) :
    (smaFold w p).queue = p.drop (p.length - w) ∧
    (smaFold w p).running_sum = (p.drop (p.length - w)).sum ∧
    (smaFold w p).sma = (List.range p.length).map (smaAt p w) := by
  induction p using List.reverseRecOn with
  | nil => refine ⟨by simp [smaFold], by simp [smaFold], by simp [smaFold]⟩
  | append_singleton p v ih =>
    obtain ⟨hq, hs, hm⟩ := ih
    have hqlen : (smaFold w p).queue.length = p.length - (p.length - w) := by
      rw [hq, List.length_drop]
    rw [smaFold_append]
    rcases Nat.lt_trichotomy (p.length + 1) w with hA | hB | hC
    · -- still filling: fewer than w values seen
      have hnw : p.length - w = 0 := by omega
      have h1 : (smaFold w p).queue.length + 1 < w := by omega
      rw [smaStep_lt w _ v h1]
      have hd : p.length + 1 - w = 0 := by omega
      refine ⟨?_, ?_, ?_⟩
      · simp only [List.length_append, List.length_singleton, hd, List.drop_zero]
        rw [hq, hnw, List.drop_zero]
      · simp only [List.length_append, List.length_singleton, hd, List.drop_zero]
        rw [hs, hnw, List.drop_zero, List.sum_append, List.sum_singleton]
      · simp only [List.length_append, List.length_singleton]
        rw [range_map_smaAt_append, ← hm]
        congr 1
        simp [smaAt, hA]
    · -- the window fills exactly now
      have hnw : p.length - w = 0 := by omega
      have h1 : (smaFold w p).queue.length + 1 = w := by omega
      rw [smaStep_eq w _ v h1]
      have hd : p.length + 1 - w = 0 := by omega
      refine ⟨?_, ?_, ?_⟩
      · simp only [List.length_append, List.length_singleton, hd, List.drop_zero]
        rw [hq, hnw, List.drop_zero]
      · simp only [List.length_append, List.length_singleton, hd, List.drop_zero]
        rw [hs, hnw, List.drop_zero, List.sum_append, List.sum_singleton]
      · simp only [List.length_append, List.length_singleton]
        rw [range_map_smaAt_append, ← hm]
        congr 2
        have : ¬ (p.length + 1 < w) := by omega
        simp only [smaAt, this, if_false, trailingWindow]
        have hlen : (p ++ [v]).length = p.length + 1 := by simp
        rw [show p.length + 1 - w = 0 by omega, List.drop_zero,
          List.take_of_length_le (by simp)]
        rw [hs, hnw, List.drop_zero]
        simp
    · -- sliding: the oldest element is popped
      have hwn : w ≤ p.length := by omega
      have hlt : p.length - w < p.length := by omega
      have hcons : p.drop (p.length - w) = p[p.length - w] :: p.drop (p.length - w + 1) :=
        List.drop_eq_getElem_cons hlt
      have h1 : w ≤ (smaFold w p).queue.length := by omega
      rw [smaStep_gt w _ v (p[p.length - w]) (p.drop (p.length - w + 1)) (hq.trans hcons) h1]
      have hd : (p ++ [v]).length - w = p.length + 1 - w := by simp
      have hdd : (p ++ [v]).drop (p.length + 1 - w) = p.drop (p.length + 1 - w) ++ [v] :=
        List.drop_append_of_le_length (by omega)
      have hsum : (p.drop (p.length - w)).sum
          = p[p.length - w] + (p.drop (p.length - w + 1)).sum := by
        rw [hcons, List.sum_cons]
      have harith : p.length - w + 1 = p.length + 1 - w := by omega
      refine ⟨?_, ?_, ?_⟩
      · rw [hd, hdd, harith]
      · rw [hd, hdd, List.sum_append, hs, hsum]
        simp [harith]
        ring
      · simp only [List.length_append, List.length_singleton]
        rw [range_map_smaAt_append, ← hm]
        congr 2
        have : ¬ (p.length + 1 < w) := by omega
        simp only [smaAt, this, if_false, trailingWindow]
        rw [List.take_of_length_le (by simp), hdd]
        rw [List.sum_append, hs, hsum, harith]
        simp
        ring_nf

/-! ## Claim theorems -/

/-- C1: for every list of closing prices and every window size at least 1,
compute_sma succeeds and returns a sequence of the same length as the
input in which every entry at an index i with i + 1 below the window size
is None, and every later entry is the arithmetic mean (sum divided by the
window size, over a slice of exactly window-size elements) of the trailing
window values[i-w+1..i]; in particular [1,2,3,4,5] with window 3 yields
[None, None, 2.0, 3.0, 4.0]. -/
theorem compute_sma_correct (values : List ℚ) (window : ℤ) (hw : 1 ≤ window) :
    (∃ out, compute_sma values window = .ok out ∧
      out.length = values.length ∧
      (∀ i, i < values.length → i + 1 < window.toNat → out[i]? = some none) ∧
      (∀ i, i < values.length → window.toNat ≤ i + 1 →
        (trailingWindow values window.toNat i).length = window.toNat ∧
        out[i]? = some (some ((trailingWindow values window.toNat i).sum / (window.toNat : ℚ))))) ∧
    compute_sma [1, 2, 3, 4, 5] 3 = .ok [none, none, some 2, some 3, some 4] := by
  constructor
  · have hw0 : ¬ (window ≤ 0) := by omega
    have hw1 : 1 ≤ window.toNat := by omega
    obtain ⟨-, -, hm⟩ := smaFold_invariant window.toNat hw1 values
    refine ⟨(smaFold window.toNat values).sma, by simp [compute_sma, hw0], ?_, ?_, ?_⟩
    · rw [hm]; simp
    · intro i hi hiw
      rw [hm]
      rw [List.getElem?_map, List.getElem?_range hi]
      simp [smaAt, hiw]
    · intro i hi hwi
      have hnone : ¬ (i + 1 < window.toNat) := by omega
      constructor
      · unfold trailingWindow
        rw [List.length_drop, List.length_take]
        omega
      · rw [hm, List.getElem?_map, List.getElem?_range hi]
        simp [smaAt, hnone]
  · norm_num [compute_sma, smaFold, smaStep, show (3:ℤ).toNat = 3 from rfl]

/-- Witness for C1: compute_sma at the concrete input of the claim. -/
theorem compute_sma_correct_witness :
    compute_sma [1, 2, 3, 4, 5] 3 = .ok [none, none, some 2, some 3, some 4] :=
  (compute_sma_correct [1, 2, 3, 4, 5] 3 (by norm_num)).2

/-- C7: for every non-empty input list and every window size at most 0,
compute_sma raises ValueError and produces no output sequence. -/
theorem compute_sma_rejects_nonpositive_window (values : List ℚ) (window : ℤ)
    (_hne : values ≠ []) (hw : window ≤ 0) :
    compute_sma values window = .error (.valueError "SMA window must be positive") := by
  simp [compute_sma, hw]

/-- Witness for C7: the test suite's invalid-window input. -/
theorem compute_sma_rejects_nonpositive_window_witness :
    compute_sma [1, 2, 3] 0 = .error (.valueError "SMA window must be positive") :=
  compute_sma_rejects_nonpositive_window [1, 2, 3] 0 (by simp) (by norm_num)

/-- C10: for the empty input list, compute_sma raises ValueError whenever
the window size is at most 0 (the positivity check precedes any inspection
of the input), and returns the empty list for every window size at
least 1. -/
theorem compute_sma_empty_input (window : ℤ) :
    (window ≤ 0 → compute_sma [] window = .error (.valueError "SMA window must be positive")) ∧
    (1 ≤ window → compute_sma [] window = .ok []) := by
  constructor
  · intro h; simp [compute_sma, h]
  · intro h
    have h0 : ¬ (window ≤ 0) := by omega
    simp [compute_sma, h0, smaFold]

/-- Witness for C10: both branches at concrete windows 0 and 1. -/
theorem compute_sma_empty_input_witness :
    compute_sma [] 0 = .error (.valueError "SMA window must be positive") ∧
    compute_sma [] 1 = .ok [] :=
  ⟨(compute_sma_empty_input 0).1 (by norm_num), (compute_sma_empty_input 1).2 (by norm_num)⟩

lemma hasPriceKey_false_iff (t : List PriceRow) (s : String) (ts : ℤ) :
    hasPriceKey t s ts = false ↔ ∀ q ∈ t, ¬ (q.symbol = s ∧ q.ts = ts) := by
  simp [hasPriceKey]

lemma insertPriceRow_unique (t : List PriceRow) (r : PriceRow) (h : priceKeysUnique t) :
    priceKeysUnique (insertPriceRow t r) := by
  unfold insertPriceRow
  by_cases hk : hasPriceKey t r.symbol r.ts
  · simpa [hk] using h
  · rw [if_neg (by simp [hk])]
    rw [priceKeysUnique, List.pairwise_append]
    refine ⟨h, List.pairwise_singleton _ _, ?_⟩
    intro a ha b hb
    have hb' : b = r := by simpa using hb
    rw [hb']
    have := (hasPriceKey_false_iff t r.symbol r.ts).mp (by simpa using hk) a ha
    tauto

lemma insert_prices_unique (rows : List PriceRow) :
    ∀ t, priceKeysUnique t → priceKeysUnique (insert_prices t rows) := by
  induction rows with
  | nil => intro t h; simpa [insert_prices] using h
  | cons r rows ih =>
    intro t h
    have : insert_prices t (r :: rows) = insert_prices (insertPriceRow t r) rows := by
      simp [insert_prices]
    rw [this]
    exact ih _ (insertPriceRow_unique t r h)

/-- C2: inserting two price bars with the same (symbol, ts) key into a
table not yet holding that key leaves exactly one row with that key, and
that row is the first bar (the duplicate is dropped, never overwritten);
moreover every sequence of inserts preserves the at-most-one-row-per-key
invariant. -/
theorem price_insert_duplicate_dropped (t : List PriceRow) (r1 r2 : PriceRow)
    (hsym : r1.symbol = r2.symbol) (hts : r1.ts = r2.ts)
    (habs : hasPriceKey t r1.symbol r1.ts = false) :
    (insert_prices t [r1, r2]).filter (fun q => q.symbol == r1.symbol && q.ts == r1.ts) = [r1] ∧
    (∀ t' rows, priceKeysUnique t' → priceKeysUnique (insert_prices t' rows)) := by
  constructor
  · have e1 : insertPriceRow t r1 = t ++ [r1] := by
      unfold insertPriceRow
      rw [if_neg (by simp [habs])]
    have e2 : insertPriceRow (t ++ [r1]) r2 = t ++ [r1] := by
      unfold insertPriceRow
      rw [if_pos]
      unfold hasPriceKey
      rw [List.any_append]
      simp [← hsym, ← hts]
    have : insert_prices t [r1, r2] = t ++ [r1] := by
      simp only [insert_prices, List.foldl_cons, List.foldl_nil, e1, e2]
    rw [this, List.filter_append]
    have hnil : t.filter (fun q => q.symbol == r1.symbol && q.ts == r1.ts) = [] := by
      rw [List.filter_eq_nil_iff]
      intro a ha
      have := (hasPriceKey_false_iff t r1.symbol r1.ts).mp habs a ha
      simp only [Bool.and_eq_true, beq_iff_eq]
      tauto
    rw [hnil]
    simp
  · intro t' rows h
    exact insert_prices_unique rows t' h

/-- Witness for C2: two concrete AAPL bars at the same timestamp inserted
into the empty table; the stored row keeps the first bar's values. -/
theorem price_insert_duplicate_dropped_witness :
    (insert_prices [] [⟨"AAPL", 5, 10, 12, 9, 11, 1000⟩, ⟨"AAPL", 5, 99, 99, 99, 99, 9⟩]).filter
      (fun q => q.symbol == "AAPL" && q.ts == 5) = [⟨"AAPL", 5, 10, 12, 9, 11, 1000⟩] :=
  (price_insert_duplicate_dropped [] ⟨"AAPL", 5, 10, 12, 9, 11, 1000⟩ ⟨"AAPL", 5, 99, 99, 99, 99, 9⟩
    rfl rfl rfl).1

lemma filter_map_replace (r : FundRow) (t : List FundRow)
    (hinv : t.Pairwise (fun a b => a.symbol ≠ b.symbol))
    (hk : ∃ q ∈ t, q.symbol = r.symbol) :
    (t.map (fun q => if q.symbol = r.symbol then r else q)).filter
      (fun q => q.symbol == r.symbol) = [r] := by
  induction t with
  | nil => simp at hk
  | cons q t' ih =>
    rw [List.pairwise_cons] at hinv
    obtain ⟨hq, hinv'⟩ := hinv
    by_cases hqs : q.symbol = r.symbol
    · have hrest : (t'.map (fun x => if x.symbol = r.symbol then r else x)).filter
          (fun x => x.symbol == r.symbol) = [] := by
        rw [List.filter_eq_nil_iff]
        intro a ha
        obtain ⟨x, hx, hax⟩ := List.mem_map.mp ha
        have hxs : x.symbol ≠ r.symbol := by
          rw [← hqs]
          exact fun hcontra => hq x hx hcontra.symm
        rw [← hax, if_neg hxs]
        simp [hxs]
      simp only [List.map_cons, if_pos hqs, List.filter_cons]
      simp [hrest]
    · have hk' : ∃ x ∈ t', x.symbol = r.symbol := by
        obtain ⟨x, hx, hxs⟩ := hk
        rcases List.mem_cons.mp hx with h | h
        · exact absurd (h ▸ hxs) hqs
        · exact ⟨x, h, hxs⟩
      simp only [List.map_cons, if_neg hqs, List.filter_cons]
      have : (q.symbol == r.symbol) = false := by simp [hqs]
      rw [this]
      simp only [Bool.false_eq_true, if_false]
      exact ih hinv' hk'

lemma upsertFundRow_filter (t : List FundRow) (r : FundRow)
    (hinv : t.Pairwise (fun a b => a.symbol ≠ b.symbol)) :
    (upsertFundRow t r).filter (fun q => q.symbol == r.symbol) = [r] ∧
    (upsertFundRow t r).Pairwise (fun a b => a.symbol ≠ b.symbol) := by
  unfold upsertFundRow
  by_cases hk : t.any (fun q => q.symbol == r.symbol)
  · rw [if_pos (by simpa using hk)]
    constructor
    · apply filter_map_replace r t hinv
      simpa [List.any_eq_true] using hk
    · have hmap : ∀ q : FundRow,
          ((fun x => if x.symbol = r.symbol then r else x) q).symbol = q.symbol := by
        intro q
        by_cases hqs : q.symbol = r.symbol
        · simp [hqs]
        · simp [hqs]
      rw [List.pairwise_map]
      exact hinv.imp_of_mem (fun {a b} _ _ hab => by rw [hmap a, hmap b]; exact hab)
  · rw [if_neg (by simpa using hk)]
    have habs : ∀ q ∈ t, q.symbol ≠ r.symbol := by simpa [List.any_eq_true] using hk
    constructor
    · rw [List.filter_append, List.filter_eq_nil_iff.mpr (fun a ha => by simp [habs a ha])]
      simp
    · rw [List.pairwise_append]
      refine ⟨hinv, List.pairwise_singleton _ _, ?_⟩
      intro a ha b hb
      have hb' : b = r := by simpa using hb
      rw [hb']
      exact habs a ha

/-- C3: starting from a fundamentals table with at most one row per symbol,
two successive upserts for the same symbol leave exactly one row for that
symbol, whose pe_ratio, market_cap, fifty_two_week_high and updated_at are
all the second upsert's values; the one-row-per-symbol invariant is
preserved. -/
theorem fundamentals_upsert_last_wins (t : List FundRow) (s : String)
    (pe1 pe2 : Option PyFloat) (mc1 mc2 : Option ℤ) (hi1 hi2 : Option PyFloat)
    (now1 now2 : ℤ)
    (hinv : t.Pairwise (fun a b => a.symbol ≠ b.symbol)) :
    (upsertFundRow (upsertFundRow t ⟨s, pe1, mc1, hi1, now1⟩) ⟨s, pe2, mc2, hi2, now2⟩).filter
      (fun q => q.symbol == s) = [⟨s, pe2, mc2, hi2, now2⟩] ∧
    (upsertFundRow (upsertFundRow t ⟨s, pe1, mc1, hi1, now1⟩) ⟨s, pe2, mc2, hi2, now2⟩).Pairwise
      (fun a b => a.symbol ≠ b.symbol) := by
  obtain ⟨-, h1p⟩ := upsertFundRow_filter t ⟨s, pe1, mc1, hi1, now1⟩ hinv
  exact upsertFundRow_filter (upsertFundRow t ⟨s, pe1, mc1, hi1, now1⟩) ⟨s, pe2, mc2, hi2, now2⟩ h1p

/-- Witness for C3: two concrete upserts for AAPL on the empty table leave
only the second row. -/
theorem fundamentals_upsert_last_wins_witness :
    (upsertFundRow (upsertFundRow [] ⟨"AAPL", some (.finite 30), some 3000000, some (.finite 200), 1⟩)
        ⟨"AAPL", some (.finite 31), some 3100000, some (.finite 210), 2⟩).filter
      (fun q => q.symbol == "AAPL") = [⟨"AAPL", some (.finite 31), some 3100000, some (.finite 210), 2⟩] :=
  (fundamentals_upsert_last_wins [] "AAPL" (some (.finite 30)) (some (.finite 31))
    (some 3000000) (some 3100000) (some (.finite 200)) (some (.finite 210)) 1 2
    (List.Pairwise.nil)).1

/-- C8: for every table, symbol and limit, and every descending-sorted
permutation of the symbol's rows (the order in which the SQL query may
return them), the price history served by the summary — the first limit
rows of that query result, reversed — is strictly ascending by timestamp
(oldest to newest), has length min limit (number of the symbol's rows),
consists of the symbol's rows, and every row of the symbol not served has a
strictly smaller timestamp than every served row: the served rows are the
limit bars with the greatest timestamps. Timestamps within one symbol are
pairwise distinct by the (symbol, ts) unique constraint, taken as a
hypothesis. -/
theorem summary_prices_oldest_to_newest
    (table : List PriceRow) (symbol : String) (limit : ℕ) (sorted : List PriceRow)
    (hperm : sorted.Perm (symbolRows table symbol))
    (hsort : tsSortedDesc sorted)
    (huniq : (symbolRows table symbol).Pairwise (fun a b => a.ts ≠ b.ts)) :
    (fetch_price_history (sorted.take limit)).Pairwise (fun a b => a.ts < b.ts) ∧
    (fetch_price_history (sorted.take limit)).length
      = min limit (symbolRows table symbol).length ∧
    (∀ r ∈ fetch_price_history (sorted.take limit), r ∈ symbolRows table symbol) ∧
    (∀ r ∈ sorted.drop limit, ∀ r' ∈ fetch_price_history (sorted.take limit), r.ts < r'.ts) := by
  have hu' : sorted.Pairwise (fun a b => a.ts ≠ b.ts) :=
    (List.Perm.pairwise_iff (fun {a b} (h : a.ts ≠ b.ts) => h.symm) hperm).mpr huniq
  have hstrict : sorted.Pairwise (fun a b => b.ts < a.ts) := by
    have hand := hsort.and hu'
    exact hand.imp (fun {a b} h => lt_of_le_of_ne h.1 h.2.symm)
  refine ⟨?_, ?_, ?_, ?_⟩
  · rw [fetch_price_history, List.pairwise_reverse]
    exact hstrict.sublist (List.take_sublist limit sorted)
  · rw [fetch_price_history, List.length_reverse, List.length_take, hperm.length_eq]
  · intro r hr
    rw [fetch_price_history, List.mem_reverse] at hr
    exact hperm.subset (List.take_subset limit sorted hr)
  · intro r hr r' hr'
    rw [fetch_price_history, List.mem_reverse] at hr'
    have hsplit : sorted = sorted.take limit ++ sorted.drop limit :=
      (List.take_append_drop limit sorted).symm
    have := (List.pairwise_append.mp (hsplit ▸ hstrict)).2.2
    exact this r' hr' r hr

/-- Witness for C8: two concrete AAPL bars fetched newest-first with
limit 1; the served history is ascending and the dropped older bar's
timestamp is below the served one. -/
theorem summary_prices_oldest_to_newest_witness :
    (fetch_price_history ([demoBarNew, demoBarOld].take 1)).Pairwise
      (fun a b => a.ts < b.ts) ∧
    (∀ r ∈ [demoBarNew, demoBarOld].drop 1,
      ∀ r' ∈ fetch_price_history ([demoBarNew, demoBarOld].take 1), r.ts < r'.ts) := by
  have h := summary_prices_oldest_to_newest [demoBarOld, demoBarNew] "AAPL" 1
    [demoBarNew, demoBarOld]
    (by rw [show symbolRows [demoBarOld, demoBarNew] "AAPL" = [demoBarOld, demoBarNew] from rfl]
        exact List.Perm.swap demoBarOld demoBarNew [])
    (by simp [tsSortedDesc, demoBarOld, demoBarNew])
    (by rw [show symbolRows [demoBarOld, demoBarNew] "AAPL" = [demoBarOld, demoBarNew] from rfl]
        simp [demoBarOld, demoBarNew])
  exact ⟨h.1, h.2.2.2⟩

/-- Counterexample for C4: with stored prices only for AAPL the resolved
symbol set is the non-empty ["AAPL"]; the request symbol "aapl" is not an
element of that set, yet the request succeeds (it is upper-cased before the
membership test), so the claim's Not-Found clause is false as stated. -/
theorem resolution_case_counterexample :
    fetch_available_symbols demoTable defaultTickers = ["AAPL"] ∧
    "aapl" ∉ (["AAPL"] : List String) ∧
    resolve_symbol ["AAPL"] (some "aapl") = .ok "AAPL" :=
  ⟨rfl, by decide, rfl⟩

/-- C4 as amended: for every prices table, ticker list and optional request
symbol, resolution fails with 503 exactly when the resolved symbol set is
empty; when it is not, the requested symbol — or the first available symbol
when the parameter is absent or is the empty string, Python's falsy-or
fallback — is upper-cased, the request fails with 404 exactly when that
upper-cased symbol is not in the resolved set, and otherwise resolution
succeeds with that upper-cased symbol. -/
theorem resolution_errors (table : List PriceRow) (tickers : List String) (req : Option String) :
    (fetch_available_symbols table tickers = [] →
      resolve_symbol (fetch_available_symbols table tickers) req
        = .error (.serviceUnavailable "No tickers available")) ∧
    (∀ s0 rest, fetch_available_symbols table tickers = s0 :: rest →
      (pyUpper (orFirst req s0) ∉ fetch_available_symbols table tickers →
        resolve_symbol (fetch_available_symbols table tickers) req
          = .error (.notFound ("Unknown symbol " ++ pyUpper (orFirst req s0)))) ∧
      (pyUpper (orFirst req s0) ∈ fetch_available_symbols table tickers →
        resolve_symbol (fetch_available_symbols table tickers) req
          = .ok (pyUpper (orFirst req s0)))) := by
  constructor
  · intro h
    rw [h, resolve_symbol]
  · intro s0 rest h
    constructor
    · intro hmem
      rw [h] at hmem ⊢
      rw [resolve_symbol]
      simp only [if_neg hmem]
    · intro hmem
      rw [h] at hmem ⊢
      rw [resolve_symbol]
      simp only [if_pos hmem]

/-- Witness for C4 as amended: the 503 branch on an empty table with no
tickers, the 404 branch for MSFT when only AAPL has prices, and the
falsy-or fallback serving AAPL at an empty symbol parameter. -/
theorem resolution_errors_witness :
    resolve_symbol (fetch_available_symbols [] []) none
      = .error (.serviceUnavailable "No tickers available") ∧
    resolve_symbol (fetch_available_symbols demoTable []) (some "MSFT")
      = .error (.notFound ("Unknown symbol " ++ pyUpper "MSFT")) ∧
    resolve_symbol (fetch_available_symbols demoTable []) (some "") = .ok "AAPL" :=
  ⟨(resolution_errors [] [] none).1 rfl,
   ((resolution_errors demoTable [] (some "MSFT")).2 "AAPL" [] rfl).1 (by decide),
   ((resolution_errors demoTable [] (some "")).2 "AAPL" [] rfl).2 (by decide)⟩

/-- Counterexample for C5: with price rows only for AAPL and both AAPL and
MSFT in the configured ticker list, the summary request for MSFT does
return Not-Found, but the symbol list served with requests is exactly
["AAPL"] and does not include MSFT, contradicting the claim that the list
includes both: the ticker list is consulted only when no price rows exist
at all. -/
theorem symbol_list_counterexample :
    "AAPL" ∈ defaultTickers ∧
    "MSFT" ∈ defaultTickers ∧
    (∀ r ∈ demoTable, r.symbol = "AAPL") ∧
    fetch_available_symbols demoTable defaultTickers = ["AAPL"] ∧
    "MSFT" ∉ (["AAPL"] : List String) ∧
    resolve_symbol ["AAPL"] (some "MSFT") = .error (.notFound "Unknown symbol MSFT") :=
  ⟨by decide, by decide, by intro r hr; simp [demoTable, demoBarOld] at hr; rw [hr], rfl,
   by decide, rfl⟩

/-- C5 as amended: with price rows only for AAPL and AAPL configured as a
ticker, a summary request for MSFT returns Not-Found, and the symbol list
served is exactly ["AAPL"] — the distinct stored-price symbols; the
configured ticker list (which would contribute MSFT) is served only when
no price rows are stored. -/
theorem symbol_list_amended :
    fetch_available_symbols demoTable defaultTickers = ["AAPL"] ∧
    resolve_symbol (fetch_available_symbols demoTable defaultTickers) (some "MSFT")
      = .error (.notFound "Unknown symbol MSFT") ∧
    fetch_available_symbols [] defaultTickers = ["AAPL", "MSFT", "GOOGL"] :=
  ⟨rfl, rfl, rfl⟩

lemma pyUpper_empty_iff (s : String) : pyUpper s = "" ↔ s = "" := by
  obtain ⟨l⟩ := s
  constructor
  · intro h
    have hdata : l.map pyUpperChar = [] := congrArg String.data h
    have hl : l = [] := by simpa using hdata
    rw [hl]
  · intro h
    rw [h]
    rfl

/-- C9: when every available symbol is upper-case and non-empty (as the
ingestion services guarantee, since they write only upper-cased configured
tickers and the ticker parser drops empty entries), a request with any
case variant of an available symbol S — any string whose upper-casing
equals that of S — succeeds and reports the upper-cased symbol S, and a
request with no symbol parameter selects the first symbol of the resolved
set. -/
theorem symbol_param_uppercased (symbols : List String)
    (hup : ∀ s ∈ symbols, pyUpper s = s) (hne : ∀ s ∈ symbols, s ≠ "") :
    (∀ S ∈ symbols, ∀ v : String, pyUpper v = pyUpper S →
      resolve_symbol symbols (some v) = .ok S) ∧
    (∀ s0 rest, symbols = s0 :: rest → resolve_symbol symbols none = .ok s0) := by
  constructor
  · intro S hS v hv
    cases symbols with
    | nil => exact absurd hS (List.not_mem_nil S)
    | cons s0 rest =>
      rw [resolve_symbol]
      have hSu : pyUpper S = S := hup S hS
      have hvne : v ≠ "" := by
        intro h0
        apply hne S hS
        apply (pyUpper_empty_iff S).mp
        rw [← hv, h0]
        rfl
      have hor : orFirst (some v) s0 = v := by simp [orFirst, hvne]
      rw [hor]
      have hsel : pyUpper v = S := by rw [hv, hSu]
      simp only [hsel, if_pos hS]
  · intro s0 rest h
    subst h
    rw [resolve_symbol]
    have h0 : pyUpper s0 = s0 := hup s0 (by simp)
    have hor : orFirst none s0 = s0 := rfl
    rw [hor, h0]
    simp only [if_pos (by simp : s0 ∈ s0 :: rest)]

/-- Witness for C9: the case variant Aapl of the available symbol AAPL
succeeds and reports AAPL, and the parameterless request selects AAPL. -/
theorem symbol_param_uppercased_witness :
    resolve_symbol ["AAPL"] (some "Aapl") = .ok "AAPL" ∧
    resolve_symbol ["AAPL"] none = .ok "AAPL" :=
  ⟨(symbol_param_uppercased ["AAPL"] (by decide) (by decide)).1 "AAPL" (by decide) "Aapl" (by decide),
   (symbol_param_uppercased ["AAPL"] (by decide) (by decide)).2 "AAPL" [] rfl⟩

/-- C6 evaluated at the failing input: _to_float indeed maps absent and
invalid values to ok-none without raising, but the value "inf" for
MarketCapitalization passes float() (which accepts the infinity keyword)
and then makes int() raise OverflowError, which the except-ValueError
handler of _to_int does not catch, so the symbol's upsert is aborted by an
escaping exception — contradicting the claim that the coercions never
raise. -/
theorem coercion_overflow_code_bug :
    _to_float (some "None") = .ok none ∧
    _to_float (some "abc") = .ok none ∧
    pyFloatOfString "inf" = some .inf ∧
    _to_int (some "inf") = .error (.overflowError "cannot convert float infinity to integer") ∧
    upsert_fundamental [] "AAPL" ⟨some "None", some "inf", none⟩ 0
      = .error (.overflowError "cannot convert float infinity to integer") :=
  ⟨rfl, rfl, rfl, rfl, rfl⟩

end StocksPipeline
